import Mathlib

/-!
# Verification of the generic expiring key-value cache (`cache_mutex.go`)

Shallow embedding of the core cache of the `go-cache` repository. Go's
`map[string]Item[T]` is modelled as an association list with unique keys
(`mapLookup` / `mapInsert` / `mapErase`), wall-clock time (`time.Now().UnixNano()`)
is passed explicitly as an `Int` argument `now` at each point where the Go code
reads the clock, and the optional eviction callback is modelled by a `Bool`
flag `onEvicted` (registered or not) together with an explicit trace of
callback invocations `List (String × α)` returned by each operation that may
fire the callback.  Fixed-width Go integer types are modelled as `Int` with
explicit wrap-around (`% 2^w`).
-/

namespace GoCache

/-- Go struct `Item[T]` from `cache_mutex.go`: a stored value together with the absolute
expiration instant in nanoseconds; `expiration = 0` means the item never
expires (Go zero value of `int64`). -/
structure Item (α : Type) where
  object : α
  expiration : Int
deriving Repr, DecidableEq

/-- Method `Item.Expired`: the item has expired iff its expiration is non-zero and the
current time is strictly past it. -/
def Item.Expired {α : Type} (item : Item α) (now : Int) : Bool :=
  if item.expiration = 0 then false
  else decide (now > item.expiration)

/-- Sentinel duration `NoExpiration` (Go: `time.Duration = -1`). -/
def NoExpiration : Int := -1

/-- Sentinel duration `DefaultExpiration` (Go: `time.Duration = 0`). -/
def DefaultExpiration : Int := 0

/-- The two error values the cache exposes: `KeyExists` (from `Add`) and
`KeyNotFound` (from `Replace`, `Increment`, `Decrement`). -/
inductive CacheErr where
  | keyExists
  | keyNotFound
deriving Repr, DecidableEq

/-- Lookup in the association-list model of `map[string]Item[T]`. -/
def mapLookup {α : Type} (k : String) : List (String × Item α) → Option (Item α)
  | [] => none
  | (k', v) :: rest => if k' = k then some v else mapLookup k rest

/-- Insert/overwrite in the association-list model of `map[string]Item[T]`:
replaces the binding for `k` if present, otherwise appends it. -/
def mapInsert {α : Type} (k : String) (v : Item α) :
    List (String × Item α) → List (String × Item α)
  | [] => [(k, v)]
  | (k', v') :: rest =>
    if k' = k then (k, v) :: rest else (k', v') :: mapInsert k v rest

/-- Removal in the association-list model of `map[string]Item[T]` (Go's
built-in `delete`). -/
def mapErase {α : Type} (k : String) :
    List (String × Item α) → List (String × Item α)
  | [] => []
  | (k', v') :: rest =>
    if k' = k then rest else (k', v') :: mapErase k rest

/-- The `cache[T]` struct: default expiration duration, the items map, and
whether an eviction callback is registered (`onEvicted != nil`).  The mutex
and janitor fields are concurrency machinery with no sequential content. -/
structure Cache (α : Type) where
  defaultExpiration : Int
  items : List (String × Item α)
  onEvicted : Bool
deriving Repr, DecidableEq

namespace Cache

variable {α : Type}

/-- Method `Set`: unconditionally insert or overwrite.  `d = DefaultExpiration` (0)
means use the cache's default; after that substitution, a positive duration
yields expiration `now + d` and any other duration (e.g. `NoExpiration`)
yields expiration 0 (never expires). -/
def Set (c : Cache α) (k : String) (x : α) (d now : Int) : Cache α :=
  let d' := if d = DefaultExpiration then c.defaultExpiration else d
  let e : Int := if d' > 0 then now + d' else 0
  { c with items := mapInsert k ⟨x, e⟩ c.items }

/-- The unexported `set`, called by `Add` and `Replace` while holding the
lock; its body is identical to `Set`. -/
def set (c : Cache α) (k : String) (x : α) (d now : Int) : Cache α :=
  let d' := if d = DefaultExpiration then c.defaultExpiration else d
  let e : Int := if d' > 0 then now + d' else 0
  { c with items := mapInsert k ⟨x, e⟩ c.items }

/-- Method `SetDefault k x` is `Set k x DefaultExpiration`. -/
def SetDefault (c : Cache α) (k : String) (x : α) (now : Int) : Cache α :=
  c.Set k x DefaultExpiration now

/-- The unexported `get`:
key found and item not expired => `(value, true)`;
key found and item expired     => `(value, false)`;
key not found                  => `(none, false)`.
The expiry test inlined here is `expiration > 0 ∧ now > expiration`. -/
def get (c : Cache α) (k : String) (now : Int) : Option α × Bool :=
  match mapLookup k c.items with
  | none => (none, false)
  | some item =>
    if item.expiration > 0 ∧ now > item.expiration then (some item.object, false)
    else (some item.object, true)

/-- Public `Get`: returns `(value, true)` for a present, unexpired entry and
`(none, false)` otherwise.  The Go method only takes the read lock and never
writes, so the state it leaves behind is returned explicitly and equals the
input state. -/
def Get (c : Cache α) (k : String) (now : Int) :
    (Option α × Bool) × Cache α :=
  (match mapLookup k c.items with
   | none => (none, false)
   | some item =>
     if item.expiration > 0 ∧ now > item.expiration then (none, false)
     else (some item.object, true),
   c)

/-- Method `Add`: succeeds (and then behaves like `set`) only when `get` reports the
key as not found; otherwise returns the `KeyExists` error and leaves the
state untouched. -/
def Add (c : Cache α) (k : String) (x : α) (d now : Int) :
    Option CacheErr × Cache α :=
  if (c.get k now).2 then (some CacheErr.keyExists, c)
  else (none, c.set k x d now)

/-- Method `Replace`: succeeds (and then behaves like `set`) only when `get` reports
the key as found; otherwise returns the `KeyNotFound` error and leaves the
state untouched. -/
def Replace (c : Cache α) (k : String) (x : α) (d now : Int) :
    Option CacheErr × Cache α :=
  if (c.get k now).2 then (none, c.set k x d now)
  else (some CacheErr.keyNotFound, c)

/-- The unexported `delete`: if the key is bound, remember its value, remove
the binding and report `true`; otherwise report `false` (the returned value is
then the type's zero value, which callers ignore). -/
def del (c : Cache α) (k : String) : Option α × Cache α :=
  match mapLookup k c.items with
  | some v => (some v.object, { c with items := mapErase k c.items })
  | none => (none, c)

/-- Public `Delete`: removes the entry under the lock via `delete`, then —
after releasing the lock — fires the eviction callback with the removed value
when a callback is registered and something was removed.  The trace of
callback invocations is the second component. -/
def Delete (c : Cache α) (k : String) : Cache α × List (String × α) :=
  match c.del k with
  | (some v, c') => (c', if c.onEvicted then [(k, v)] else [])
  | (none, c') => (c', [])

/-- The sweep test inlined in `DeleteExpired` (and `Items`):
`v.Expiration > 0 && now > v.Expiration`. -/
def sweepable (now : Int) (item : Item α) : Bool :=
  decide (item.expiration > 0 ∧ now > item.expiration)

/-- Method `DeleteExpired`: under the lock, remove every entry whose expiration is
positive and strictly in the past, collecting `(key, value)` for each removed
entry when a callback is registered; after releasing the lock, fire the
callback once per collected pair (the returned trace).  Go's map iteration
order is unspecified; the association list order is one admissible order. -/
def DeleteExpired (c : Cache α) (now : Int) : Cache α × List (String × α) :=
  ({ c with items := c.items.filter (fun kv => !(sweepable now kv.2)) },
   if c.onEvicted then
     (c.items.filter (fun kv => sweepable now kv.2)).map
       (fun kv => (kv.1, kv.2.object))
   else [])

/-- Method `ItemCount`: the size of the items map, expired-but-unswept entries
included. -/
def ItemCount (c : Cache α) : Nat := c.items.length

/-- Method `Flush`: replace the items map with a fresh empty one.  The method body
contains no call to the eviction callback, so its invocation trace is empty. -/
def Flush (c : Cache α) : Cache α × List (String × α) :=
  ({ c with items := [] }, [])

end Cache

/-- Method `Increment` (from `numericCache`): fails with `KeyNotFound` when the key
is absent or the entry is expired per `Item.Expired`; otherwise stores
`old + n` back under the same expiration and returns the new value.  The
first component is `(new value, error)` as in Go. -/
def Cache.Increment {α : Type} [HAdd α α α] (c : Cache α) (k : String) (n : α)
    (now : Int) : (Option α × Option CacheErr) × Cache α :=
  match mapLookup k c.items with
  | none => ((none, some CacheErr.keyNotFound), c)
  | some v =>
    if v.Expired now then ((none, some CacheErr.keyNotFound), c)
    else
      let nv := v.object + n
      ((some nv, none), { c with items := mapInsert k ⟨nv, v.expiration⟩ c.items })

/-- Method `Decrement` (from `numericCache`): same as `Increment` with `old - n`. -/
def Cache.Decrement {α : Type} [HSub α α α] (c : Cache α) (k : String) (n : α)
    (now : Int) : (Option α × Option CacheErr) × Cache α :=
  match mapLookup k c.items with
  | none => ((none, some CacheErr.keyNotFound), c)
  | some v =>
    if v.Expired now then ((none, some CacheErr.keyNotFound), c)
    else
      let nv := v.object - n
      ((some nv, none), { c with items := mapInsert k ⟨nv, v.expiration⟩ c.items })

/-- Constructor `newCache`: normalizes a zero default expiration to `-1` and builds the
cache around the supplied items map; no callback is registered initially. -/
def newCache {α : Type} (de : Int) (m : List (String × Item α)) : Cache α :=
  let de' := if de = 0 then -1 else de
  { defaultExpiration := de', items := m, onEvicted := false }

/-- Go's `int8`: an integer reduced modulo 2^8 into `[-128, 127]`; `+` and `-`
wrap around exactly as the machine type does. -/
structure GoInt8 where
  toInt : Int
deriving Repr, DecidableEq

/-- Wrap an unbounded integer into the `int8` range `[-128, 127]`. -/
def GoInt8.wrap (x : Int) : GoInt8 := ⟨(x + 128) % 256 - 128⟩

instance : Add GoInt8 := ⟨fun a b => GoInt8.wrap (a.toInt + b.toInt)⟩
instance : Sub GoInt8 := ⟨fun a b => GoInt8.wrap (a.toInt - b.toInt)⟩

/-- Go's `uint8`: an integer reduced modulo 2^8 into `[0, 255]`; `+` and `-`
wrap around exactly as the machine type does. -/
structure GoUInt8 where
  toInt : Int
deriving Repr, DecidableEq

/-- Wrap an unbounded integer into the `uint8` range `[0, 255]`. -/
def GoUInt8.wrap (x : Int) : GoUInt8 := ⟨x % 256⟩

instance : Add GoUInt8 := ⟨fun a b => GoUInt8.wrap (a.toInt + b.toInt)⟩
instance : Sub GoUInt8 := ⟨fun a b => GoUInt8.wrap (a.toInt - b.toInt)⟩

/-- The Go map invariant: every key is bound at most once.  Holds for every
state reachable through the cache API and for any genuine `map`-seeded state. -/
def KeysNodup {α : Type} (l : List (String × Item α)) : Prop :=
  (l.map Prod.fst).Nodup

instance {α : Type} (l : List (String × Item α)) : Decidable (KeysNodup l) :=
  List.nodupDecidable _

section MapLemmas

variable {α : Type}

theorem mapLookup_mapInsert_self (k : String) (v : Item α)
    (l : List (String × Item α)) : mapLookup k (mapInsert k v l) = some v := by
  induction l with
  | nil => simp [mapInsert, mapLookup]
  | cons hd tl ih =>
    obtain ⟨k', v'⟩ := hd
    by_cases h : k' = k
    · simp [mapInsert, h, mapLookup]
    · simp [mapInsert, h, mapLookup, ih]

theorem mapLookup_mapInsert_ne {k k' : String} (h : k' ≠ k) (v : Item α)
    (l : List (String × Item α)) :
    mapLookup k' (mapInsert k v l) = mapLookup k' l := by
  have h' : k ≠ k' := Ne.symm h
  induction l with
  | nil => simp [mapInsert, mapLookup, h']
  | cons hd tl ih =>
    obtain ⟨k₁, v₁⟩ := hd
    by_cases h₁ : k₁ = k
    · subst h₁
      simp [mapInsert, mapLookup, h']
    · simp [mapInsert, h₁, mapLookup, ih]

theorem mapLookup_eq_none_of_not_mem {k : String} {l : List (String × Item α)}
    (h : k ∉ l.map Prod.fst) : mapLookup k l = none := by
  induction l with
  | nil => rfl
  | cons hd tl ih =>
    obtain ⟨k₁, v₁⟩ := hd
    simp only [List.map_cons, List.mem_cons] at h
    push_neg at h
    have h₁ : k₁ ≠ k := Ne.symm h.1
    simp [mapLookup, h₁, ih h.2]

theorem mapLookup_mapErase_self {k : String} {l : List (String × Item α)}
    (hnd : KeysNodup l) : mapLookup k (mapErase k l) = none := by
  induction l with
  | nil => rfl
  | cons hd tl ih =>
    obtain ⟨k₁, v₁⟩ := hd
    simp only [KeysNodup, List.map_cons, List.nodup_cons] at hnd
    by_cases h₁ : k₁ = k
    · subst h₁
      simpa [mapErase] using mapLookup_eq_none_of_not_mem hnd.1
    · simp [mapErase, h₁, mapLookup, ih hnd.2]

theorem mapLookup_mapErase_ne {k k' : String} (h : k' ≠ k)
    (l : List (String × Item α)) :
    mapLookup k' (mapErase k l) = mapLookup k' l := by
  have h' : k ≠ k' := Ne.symm h
  induction l with
  | nil => rfl
  | cons hd tl ih =>
    obtain ⟨k₁, v₁⟩ := hd
    by_cases h₁ : k₁ = k
    · subst h₁
      simp [mapErase, mapLookup, h']
    · simp [mapErase, h₁, mapLookup, ih]

theorem mapLookup_filter_of_lookup {k : String} {v : Item α}
    {l : List (String × Item α)} {p : String × Item α → Bool}
    (h : mapLookup k l = some v) (hp : p (k, v) = true) :
    mapLookup k (l.filter p) = some v := by
  induction l with
  | nil => simp [mapLookup] at h
  | cons hd tl ih =>
    obtain ⟨k₁, v₁⟩ := hd
    by_cases h₁ : k₁ = k
    · subst h₁
      simp only [mapLookup, if_pos rfl] at h
      cases h
      simp [List.filter_cons, hp, mapLookup]
    · simp only [mapLookup, if_neg h₁] at h
      by_cases hq : p (k₁, v₁)
      · simp [List.filter_cons, hq, mapLookup, h₁, ih h]
      · simp [List.filter_cons, hq, ih h]

theorem mapLookup_filter {k : String} {l : List (String × Item α)}
    {p : String × Item α → Bool} (hnd : KeysNodup l) :
    mapLookup k (l.filter p) =
      match mapLookup k l with
      | some v => if p (k, v) then some v else none
      | none => none := by
  induction l with
  | nil => rfl
  | cons hd tl ih =>
    obtain ⟨k₁, v₁⟩ := hd
    simp only [KeysNodup, List.map_cons, List.nodup_cons] at hnd
    by_cases h₁ : k₁ = k
    · subst h₁
      by_cases hq : p (k₁, v₁)
      · simp [List.filter_cons, hq, mapLookup]
      · have hnone : mapLookup k₁ (tl.filter p) = none := by
          refine mapLookup_eq_none_of_not_mem ?_
          intro hmem
          exact hnd.1 (List.map_subset _ (List.filter_subset' tl) hmem)
        simp [List.filter_cons, hq, mapLookup, hnone]
    · by_cases hq : p (k₁, v₁)
      · simp [List.filter_cons, hq, mapLookup, h₁, ih hnd.2]
      · simp [List.filter_cons, hq, mapLookup, h₁, ih hnd.2]

theorem mem_iff_mapLookup {k : String} {v : Item α}
    {l : List (String × Item α)} (hnd : KeysNodup l) :
    (k, v) ∈ l ↔ mapLookup k l = some v := by
  induction l with
  | nil => simp [mapLookup]
  | cons hd tl ih =>
    obtain ⟨k₁, v₁⟩ := hd
    simp only [KeysNodup, List.map_cons, List.nodup_cons] at hnd
    constructor
    · intro hmem
      rcases List.mem_cons.mp hmem with heq | htl
      · cases heq
        simp [mapLookup]
      · have hk : k₁ ≠ k := by
          rintro rfl
          exact hnd.1 (List.mem_map.mpr ⟨(k₁, v), htl, rfl⟩)
        simp [mapLookup, hk, (ih hnd.2).mp htl]
    · intro hlk
      by_cases h₁ : k₁ = k
      · subst h₁
        simp only [mapLookup, if_pos rfl] at hlk
        cases hlk
        exact List.mem_cons_self _ _
      · simp only [mapLookup, if_neg h₁] at hlk
        exact List.mem_cons_of_mem _ ((ih hnd.2).mpr hlk)

end MapLemmas

section CacheLemmas

variable {α : Type}

/-- Lemma: `Set` with the `NoExpiration` sentinel stores the value with expiration 0. -/
theorem Set_noExpiration (c : Cache α) (k : String) (x : α) (now : Int) :
    c.Set k x NoExpiration now = { c with items := mapInsert k ⟨x, 0⟩ c.items } := by
  simp [Cache.Set, NoExpiration, DefaultExpiration]

/-- A never-expiring binding survives one `DeleteExpired` sweep. -/
theorem lookup_deleteExpired_of_noExp {c : Cache α} {k : String} {x : α}
    (h : mapLookup k c.items = some ⟨x, 0⟩) (t : Int) :
    mapLookup k ((c.DeleteExpired t).1).items = some ⟨x, 0⟩ := by
  exact mapLookup_filter_of_lookup h (by simp [Cache.sweepable])

/-- A never-expiring binding survives any sequence of `DeleteExpired` sweeps. -/
theorem lookup_foldl_deleteExpired_of_noExp {k : String} {x : α}
    (sweeps : List Int) :
    ∀ c : Cache α, mapLookup k c.items = some ⟨x, 0⟩ →
      mapLookup k ((sweeps.foldl (fun s t => (s.DeleteExpired t).1) c).items) =
        some ⟨x, 0⟩ := by
  induction sweeps with
  | nil => intro c h; exact h
  | cons t rest ih =>
    intro c h
    exact ih _ (lookup_deleteExpired_of_noExp h t)

/-- A binding with expiration 0 is reported `(value, true)` by `Get`. -/
theorem Get_of_noExp {c : Cache α} {k : String} {x : α}
    (h : mapLookup k c.items = some ⟨x, 0⟩) (now : Int) :
    (c.Get k now).1 = (some x, true) := by
  simp [Cache.Get, h]

/-- The internal `get` reports not-found exactly when the key is absent or the
entry carries a positive expiration strictly in the past. -/
theorem get_not_found_iff (c : Cache α) (k : String) (now : Int) :
    (c.get k now).2 = false ↔
      mapLookup k c.items = none ∨
        ∃ v, mapLookup k c.items = some v ∧ v.expiration > 0 ∧ now > v.expiration := by
  unfold Cache.get
  cases hlk : mapLookup k c.items with
  | none => simp
  | some v =>
    by_cases hexp : v.expiration > 0 ∧ now > v.expiration
    · simp [hexp]
    · simp [hexp]

end CacheLemmas

end GoCache

namespace GoCache

/-- C7: `Flush` replaces the map by an empty one: afterwards `ItemCount` is 0
and `Get` misses on every key (in particular every previously stored one), and
the eviction callback is invoked zero times regardless of how many entries
were cleared and whether a callback was registered. -/
theorem flush_empties_and_fires_no_callback {α : Type} (c : Cache α)
    (k : String) (now : Int) :
    (c.Flush.1).ItemCount = 0 ∧
    ((c.Flush.1).Get k now).1 = (none, false) ∧
    c.Flush.2 = [] := by
  refine ⟨rfl, ?_, rfl⟩
  simp [Cache.Flush, Cache.Get, mapLookup]

/-- C2: after `Set k x NoExpiration`, the stored entry carries expiration 0
(no expiration instant), and `Get k` returns `(x, true)` at every time,
no matter which `DeleteExpired` sweeps have run in between. -/
theorem set_noExpiration_get_forever {α : Type} (c : Cache α) (k : String)
    (x : α) (now now' : Int) (sweeps : List Int) :
    mapLookup k (c.Set k x NoExpiration now).items = some ⟨x, 0⟩ ∧
    (((sweeps.foldl (fun s t => (s.DeleteExpired t).1)
        (c.Set k x NoExpiration now)).Get k now').1 = (some x, true)) := by
  have h0 : mapLookup k (c.Set k x NoExpiration now).items = some ⟨x, 0⟩ := by
    rw [Set_noExpiration]
    exact mapLookup_mapInsert_self k _ c.items
  exact ⟨h0, Get_of_noExp (lookup_foldl_deleteExpired_of_noExp sweeps _ h0) now'⟩

/-- C5: `Get` returns `(none, false)` when the key is absent or the entry
carries a (positive) expiration instant lying strictly in the past, and `Get`
never mutates the store — the state after the call is the state before it, so
an expired-but-not-yet-swept entry is still physically present in the map. -/
theorem get_misses_absent_or_expired_without_mutation {α : Type} (c : Cache α)
    (k : String) (now : Int)
    (h : mapLookup k c.items = none ∨
      ∃ v, mapLookup k c.items = some v ∧ v.expiration > 0 ∧ now > v.expiration) :
    (c.Get k now).1 = (none, false) ∧
    (c.Get k now).2 = c ∧
    mapLookup k ((c.Get k now).2).items = mapLookup k c.items := by
  refine ⟨?_, rfl, rfl⟩
  rcases h with h | ⟨v, hv, hpos, hpast⟩
  · simp [Cache.Get, h]
  · simp [Cache.Get, hv, hpos, hpast]

/-- Witness for C5 at a concrete expired-but-unswept entry. -/
theorem get_misses_absent_or_expired_without_mutation_witness :
    (mapLookup "k" (Cache.mk (-1) [("k", ⟨(42 : Int), 5⟩)] false).items =
      some ⟨(42 : Int), 5⟩ ∧ (5 : Int) > 0 ∧ (10 : Int) > 5) ∧
    ((Cache.mk (-1) [("k", ⟨(42 : Int), 5⟩)] false).Get "k" 10).1 = (none, false) ∧
    mapLookup "k"
      (((Cache.mk (-1) [("k", ⟨(42 : Int), 5⟩)] false).Get "k" 10).2).items =
      some ⟨(42 : Int), 5⟩ := by
  have h := get_misses_absent_or_expired_without_mutation
    (Cache.mk (-1) [("k", ⟨(42 : Int), 5⟩)] false) "k" 10
    (Or.inr ⟨⟨42, 5⟩, by decide, by decide, by decide⟩)
  exact ⟨⟨by decide, by decide, by decide⟩, h.1, by rw [h.2.2]; decide⟩

/-- C1: `Add k x d` succeeds, and its effect is exactly that of `Set k x d`,
precisely when no live entry exists under `k` — the key is absent, or the
existing entry carries a positive expiration strictly in the past; when a live
entry exists it fails with `KeyExists` and leaves the state untouched, so a
subsequent `Get k` returns exactly what it returned before the `Add`. -/
theorem add_like_set_iff_no_live_entry {α : Type} (c : Cache α) (k : String)
    (x : α) (d now : Int) :
    ((mapLookup k c.items = none ∨
        ∃ v, mapLookup k c.items = some v ∧ v.expiration > 0 ∧ now > v.expiration) →
      c.Add k x d now = (none, c.Set k x d now)) ∧
    ((∃ v, mapLookup k c.items = some v ∧
        ¬(v.expiration > 0 ∧ now > v.expiration)) →
      c.Add k x d now = (some CacheErr.keyExists, c) ∧
      (((c.Add k x d now).2).Get k now).1 = (c.Get k now).1) := by
  constructor
  · intro h
    have hf : (c.get k now).2 = false := (get_not_found_iff c k now).mpr h
    simp only [Cache.Add, hf, Bool.false_eq_true, if_false]
    rfl
  · rintro ⟨v, hv, hexp⟩
    have ht : (c.get k now).2 = true := by
      by_contra hne
      have hf : (c.get k now).2 = false := by
        cases hb : (c.get k now).2
        · rfl
        · exact absurd hb hne
      rcases (get_not_found_iff c k now).mp hf with h | ⟨w, hw, hwexp⟩
      · rw [h] at hv; cases hv
      · rw [hw] at hv; cases hv; exact hexp hwexp
    have hadd : c.Add k x d now = (some CacheErr.keyExists, c) := by
      simp [Cache.Add, ht]
    exact ⟨hadd, by rw [hadd]⟩

/-- Witness for C1: on an empty store `Add` succeeds and acts as `Set`; on a
store holding a live entry it fails with `KeyExists` and `Get` still sees the
stored value 3. -/
theorem add_like_set_iff_no_live_entry_witness :
    (mapLookup "k" (Cache.mk (-1) ([] : List (String × Item Int)) false).items =
        none ∧
      (Cache.mk (-1) ([] : List (String × Item Int)) false).Add "k" 7 (-1) 10 =
        (none,
          (Cache.mk (-1) ([] : List (String × Item Int)) false).Set "k" 7 (-1) 10)) ∧
    (mapLookup "k" (Cache.mk (-1) [("k", ⟨(3 : Int), 0⟩)] false).items =
        some ⟨3, 0⟩ ∧
      (Cache.mk (-1) [("k", ⟨(3 : Int), 0⟩)] false).Add "k" 7 (-1) 10 =
        (some CacheErr.keyExists, Cache.mk (-1) [("k", ⟨(3 : Int), 0⟩)] false) ∧
      ((((Cache.mk (-1) [("k", ⟨(3 : Int), 0⟩)] false).Add "k" 7 (-1) 10).2).Get
          "k" 10).1 = (some 3, true)) := by
  have h1 := (add_like_set_iff_no_live_entry
    (Cache.mk (-1) ([] : List (String × Item Int)) false) "k" 7 (-1) 10).1
    (Or.inl (by decide))
  have h2 := (add_like_set_iff_no_live_entry
    (Cache.mk (-1) [("k", ⟨(3 : Int), 0⟩)] false) "k" 7 (-1) 10).2
    ⟨⟨3, 0⟩, by decide, by decide⟩
  refine ⟨⟨by decide, h1⟩, by decide, h2.1, ?_⟩
  rw [h2.2]
  decide

/-- C4: `Increment` and `Decrement` fail, with the `KeyNotFound` error,
exactly when the key is absent or its entry is expired (per `Item.Expired`),
and a failing call returns the store completely unchanged. -/
theorem increment_decrement_fail_iff_missing {α : Type} [HAdd α α α]
    [HSub α α α] (c : Cache α) (k : String) (n : α) (now : Int) :
    ((c.Increment k n now).1.2 = some CacheErr.keyNotFound ↔
      mapLookup k c.items = none ∨
        ∃ v, mapLookup k c.items = some v ∧ v.Expired now = true) ∧
    ((c.Increment k n now).1.2 = some CacheErr.keyNotFound →
      c.Increment k n now = ((none, some CacheErr.keyNotFound), c)) ∧
    ((c.Decrement k n now).1.2 = some CacheErr.keyNotFound ↔
      mapLookup k c.items = none ∨
        ∃ v, mapLookup k c.items = some v ∧ v.Expired now = true) ∧
    ((c.Decrement k n now).1.2 = some CacheErr.keyNotFound →
      c.Decrement k n now = ((none, some CacheErr.keyNotFound), c)) := by
  cases hlk : mapLookup k c.items with
  | none =>
    simp [Cache.Increment, Cache.Decrement, hlk]
  | some v =>
    cases hexp : v.Expired now with
    | false => simp [Cache.Increment, Cache.Decrement, hlk, hexp]
    | true => simp [Cache.Increment, Cache.Decrement, hlk, hexp]

/-- Witness for C4: incrementing an absent key and decrementing an expired key
both fail with `KeyNotFound` and leave the store unchanged. -/
theorem increment_decrement_fail_iff_missing_witness :
    ((Cache.mk (-1) ([] : List (String × Item Int)) false).Increment "k" 1 10 =
      ((none, some CacheErr.keyNotFound),
        Cache.mk (-1) ([] : List (String × Item Int)) false)) ∧
    ((Cache.mk (-1) [("k", ⟨(9 : Int), 5⟩)] false).Decrement "k" 1 10 =
      ((none, some CacheErr.keyNotFound),
        Cache.mk (-1) [("k", ⟨(9 : Int), 5⟩)] false)) := by
  have h1 := increment_decrement_fail_iff_missing
    (Cache.mk (-1) ([] : List (String × Item Int)) false) "k" (1 : Int) 10
  have h2 := increment_decrement_fail_iff_missing
    (Cache.mk (-1) [("k", ⟨(9 : Int), 5⟩)] false) "k" (1 : Int) 10
  exact ⟨h1.2.1 (h1.1.mpr (Or.inl (by decide))),
    h2.2.2.2 (h2.2.2.1.mpr (Or.inr ⟨⟨9, 5⟩, by decide, by decide⟩))⟩

/-- C8: a successful `Increment` (resp. `Decrement`) returns the new value
`old + n` (resp. `old - n`), stores it back under exactly the old entry's
expiration instant, leaves every other key's binding untouched, and changes no
other field of the store. -/
theorem increment_decrement_frame {α : Type} [HAdd α α α] [HSub α α α]
    (c : Cache α) (k : String) (n : α) (now : Int) (v : Item α)
    (hv : mapLookup k c.items = some v) (hexp : v.Expired now = false) :
    ((c.Increment k n now).1.1 = some (v.object + n) ∧
      mapLookup k ((c.Increment k n now).2).items =
        some ⟨v.object + n, v.expiration⟩ ∧
      (∀ k', k' ≠ k →
        mapLookup k' ((c.Increment k n now).2).items = mapLookup k' c.items) ∧
      ((c.Increment k n now).2).defaultExpiration = c.defaultExpiration ∧
      ((c.Increment k n now).2).onEvicted = c.onEvicted) ∧
    ((c.Decrement k n now).1.1 = some (v.object - n) ∧
      mapLookup k ((c.Decrement k n now).2).items =
        some ⟨v.object - n, v.expiration⟩ ∧
      (∀ k', k' ≠ k →
        mapLookup k' ((c.Decrement k n now).2).items = mapLookup k' c.items) ∧
      ((c.Decrement k n now).2).defaultExpiration = c.defaultExpiration ∧
      ((c.Decrement k n now).2).onEvicted = c.onEvicted) := by
  have hinc : c.Increment k n now =
      ((some (v.object + n), none),
        { c with items := mapInsert k ⟨v.object + n, v.expiration⟩ c.items }) := by
    simp [Cache.Increment, hv, hexp]
  have hdec : c.Decrement k n now =
      ((some (v.object - n), none),
        { c with items := mapInsert k ⟨v.object - n, v.expiration⟩ c.items }) := by
    simp [Cache.Decrement, hv, hexp]
  rw [hinc, hdec]
  exact ⟨⟨rfl, mapLookup_mapInsert_self k _ c.items,
      fun k' hk' => mapLookup_mapInsert_ne hk' _ c.items, rfl, rfl⟩,
    rfl, mapLookup_mapInsert_self k _ c.items,
      fun k' hk' => mapLookup_mapInsert_ne hk' _ c.items, rfl, rfl⟩

/-- Witness for C8 on a two-entry store: incrementing key "a" (holding 5 with
expiration 77) by 2 yields 7 stored under expiration 77, while key "b" keeps
its binding. -/
theorem increment_decrement_frame_witness :
    ((Cache.mk (-1) [("a", ⟨(5 : Int), 77⟩), ("b", ⟨(1 : Int), 0⟩)] false).Increment
        "a" 2 10).1.1 = some 7 ∧
    mapLookup "a"
      (((Cache.mk (-1) [("a", ⟨(5 : Int), 77⟩), ("b", ⟨(1 : Int), 0⟩)] false).Increment
          "a" 2 10).2).items = some ⟨7, 77⟩ ∧
    mapLookup "b"
      (((Cache.mk (-1) [("a", ⟨(5 : Int), 77⟩), ("b", ⟨(1 : Int), 0⟩)] false).Increment
          "a" 2 10).2).items = some ⟨1, 0⟩ ∧
    ((Cache.mk (-1) [("a", ⟨(5 : Int), 77⟩), ("b", ⟨(1 : Int), 0⟩)] false).Decrement
        "a" 2 10).1.1 = some 3 := by
  have h := increment_decrement_frame
    (Cache.mk (-1) [("a", ⟨(5 : Int), 77⟩), ("b", ⟨(1 : Int), 0⟩)] false)
    "a" (2 : Int) 10 ⟨5, 77⟩ (by decide) (by decide)
  refine ⟨h.1.1, h.1.2.1, ?_, h.2.1⟩
  rw [h.1.2.2.1 "b" (by decide)]
  decide

/-- C3: on 8-bit fixed-width values the numeric mutator wraps around: a signed
8-bit entry holding 127 incremented by 1 yields −128 and an unsigned 8-bit
entry holding 0 decremented by 1 yields 255; moreover `+` and `-` on these
types always reduce modulo 2^8 (never saturating or checked). -/
theorem increment_decrement_wraparound (c₁ : Cache GoInt8) (c₂ : Cache GoUInt8)
    (k₁ k₂ : String) (now₁ now₂ : Int) (v₁ : Item GoInt8) (v₂ : Item GoUInt8)
    (h₁ : mapLookup k₁ c₁.items = some v₁) (he₁ : v₁.Expired now₁ = false)
    (ho₁ : v₁.object = ⟨127⟩)
    (h₂ : mapLookup k₂ c₂.items = some v₂) (he₂ : v₂.Expired now₂ = false)
    (ho₂ : v₂.object = ⟨0⟩) :
    (c₁.Increment k₁ ⟨1⟩ now₁).1.1 = some ⟨-128⟩ ∧
    (c₂.Decrement k₂ ⟨1⟩ now₂).1.1 = some ⟨255⟩ ∧
    (∀ a b : GoInt8, a + b = GoInt8.wrap (a.toInt + b.toInt)) ∧
    (∀ a b : GoUInt8, a - b = GoUInt8.wrap (a.toInt - b.toInt)) := by
  refine ⟨?_, ?_, fun a b => rfl, fun a b => rfl⟩
  · have : (⟨127⟩ + ⟨1⟩ : GoInt8) = ⟨-128⟩ := by decide
    simp [Cache.Increment, h₁, he₁, ho₁, this]
  · have : (⟨0⟩ - ⟨1⟩ : GoUInt8) = ⟨255⟩ := by decide
    simp [Cache.Decrement, h₂, he₂, ho₂, this]

/-- Witness for C3 on concrete one-entry stores. -/
theorem increment_decrement_wraparound_witness :
    ((Cache.mk (-1) [("k", ⟨(⟨127⟩ : GoInt8), 0⟩)] false).Increment
        "k" ⟨1⟩ 10).1.1 = some ⟨-128⟩ ∧
    ((Cache.mk (-1) [("k", ⟨(⟨0⟩ : GoUInt8), 0⟩)] false).Decrement
        "k" ⟨1⟩ 10).1.1 = some ⟨255⟩ := by
  have h := increment_decrement_wraparound
    (Cache.mk (-1) [("k", ⟨(⟨127⟩ : GoInt8), 0⟩)] false)
    (Cache.mk (-1) [("k", ⟨(⟨0⟩ : GoUInt8), 0⟩)] false)
    "k" "k" 10 10 ⟨⟨127⟩, 0⟩ ⟨⟨0⟩, 0⟩
    (by decide) (by decide) rfl (by decide) (by decide) rfl
  exact ⟨h.1, h.2.1⟩

/-- C9: the constructor normalizes a zero default expiration to −1, so
`newCache 0` and `newCache NoExpiration` build identical stores, and on such a
store entries written with `SetDefault` (or `Set` with `DefaultExpiration`)
carry expiration 0 and are found by `Get` at every later time. -/
theorem newCache_zero_equiv_noExpiration {α : Type}
    (m : List (String × Item α)) (k : String) (x : α) (now now' : Int) :
    newCache 0 m = newCache NoExpiration m ∧
    (newCache (0 : Int) m).defaultExpiration = -1 ∧
    mapLookup k ((newCache (0 : Int) m).SetDefault k x now).items =
      some ⟨x, 0⟩ ∧
    (((newCache (0 : Int) m).SetDefault k x now).Get k now').1 =
      (some x, true) ∧
    (((newCache (0 : Int) m).Set k x DefaultExpiration now).Get k now').1 =
      (some x, true) := by
  have hstate : (newCache (0 : Int) m : Cache α) =
      { defaultExpiration := -1, items := m, onEvicted := false } := by
    simp [newCache]
  have hset : (newCache (0 : Int) m).Set k x DefaultExpiration now =
      { defaultExpiration := -1, items := mapInsert k ⟨x, 0⟩ m,
        onEvicted := false } := by
    rw [hstate]
    simp [Cache.Set, DefaultExpiration]
  have hlk : mapLookup k ((newCache (0 : Int) m).SetDefault k x now).items =
      some ⟨x, 0⟩ := by
    show mapLookup k ((newCache (0 : Int) m).Set k x DefaultExpiration now).items =
      some ⟨x, 0⟩
    rw [hset]
    exact mapLookup_mapInsert_self k _ m
  refine ⟨by simp [newCache, NoExpiration], by rw [hstate], hlk,
    Get_of_noExp hlk now', ?_⟩
  exact Get_of_noExp (by rw [hset]; exact mapLookup_mapInsert_self k _ m) now'

/-- C10: `Delete` treats an expired-but-not-yet-swept entry as present: it
removes it from the map and fires the eviction callback with its old value,
whereas at the same state `Get` misses, `Add` succeeds and `Replace` fails
with `KeyNotFound` — they all treat the entry as absent. -/
theorem delete_evicts_expired_entry {α : Type} (c : Cache α) (k : String)
    (now : Int) (v : Item α) (x : α) (d : Int)
    (hnd : KeysNodup c.items) (hv : mapLookup k c.items = some v)
    (hpos : v.expiration > 0) (hpast : now > v.expiration)
    (hcb : c.onEvicted = true) :
    (c.Delete k).2 = [(k, v.object)] ∧
    mapLookup k ((c.Delete k).1).items = none ∧
    (c.Get k now).1 = (none, false) ∧
    (c.Add k x d now).1 = none ∧
    (c.Replace k x d now).1 = some CacheErr.keyNotFound := by
  have hdel : c.Delete k =
      ({ c with items := mapErase k c.items }, [(k, v.object)]) := by
    simp [Cache.Delete, Cache.del, hv, hcb]
  have hf : (c.get k now).2 = false :=
    (get_not_found_iff c k now).mpr (Or.inr ⟨v, hv, hpos, hpast⟩)
  refine ⟨by rw [hdel], ?_, ?_, ?_, ?_⟩
  · rw [hdel]
    exact mapLookup_mapErase_self hnd
  · simp [Cache.Get, hv, hpos, hpast]
  · simp [Cache.Add, hf]
  · simp [Cache.Replace, hf]

/-- Witness for C10: deleting the key "k" whose entry (value 7) expired at 5,
at current time 10, evicts `("k", 7)` while `Get` misses, `Add` succeeds and
`Replace` fails. -/
theorem delete_evicts_expired_entry_witness :
    ((Cache.mk (-1) [("k", ⟨(7 : Int), 5⟩)] true).Delete "k").2 = [("k", 7)] ∧
    mapLookup "k"
      (((Cache.mk (-1) [("k", ⟨(7 : Int), 5⟩)] true).Delete "k").1).items = none ∧
    ((Cache.mk (-1) [("k", ⟨(7 : Int), 5⟩)] true).Get "k" 10).1 = (none, false) ∧
    ((Cache.mk (-1) [("k", ⟨(7 : Int), 5⟩)] true).Add "k" 9 (-1) 10).1 = none ∧
    ((Cache.mk (-1) [("k", ⟨(7 : Int), 5⟩)] true).Replace "k" 9 (-1) 10).1 =
      some CacheErr.keyNotFound :=
  delete_evicts_expired_entry (Cache.mk (-1) [("k", ⟨(7 : Int), 5⟩)] true)
    "k" 10 ⟨7, 5⟩ 9 (-1) (by decide) (by decide) (by decide) (by decide) rfl

/-- C6 counterexample: an entry whose expiration −5 is set (non-zero) and
strictly earlier than the current time 100 is nevertheless NOT removed by
`DeleteExpired` — the sweep tests `expiration > 0`, not `expiration ≠ 0`, so
a seeded entry with a negative expiration survives every sweep. -/
theorem deleteExpired_keeps_negative_expiration :
    (Item.mk (0 : Int) (-5)).expiration ≠ 0 ∧
    (Item.mk (0 : Int) (-5)).expiration < 100 ∧
    mapLookup "k"
      (((Cache.mk (-1) [("k", Item.mk (0 : Int) (-5))] false).DeleteExpired
        100).1).items = some (Item.mk (0 : Int) (-5)) := by
  refine ⟨by decide, by decide, by decide⟩

/-- C6 (amended): `DeleteExpired` removes exactly those entries whose
expiration is strictly positive and strictly earlier than the current time —
entries with no expiration, a future expiration, or a non-positive expiration
are untouched — and, when a callback is registered, the eviction callback
fires exactly once per removed entry (the invocation trace lists each removed
key exactly once and is handed over only after the map mutation completes,
modelling firing after the lock is released); with no callback registered no
invocation happens. -/
theorem deleteExpired_removes_exactly_positive_past {α : Type} (c : Cache α)
    (now : Int) (hnd : KeysNodup c.items) :
    (∀ k v, mapLookup k c.items = some v →
      mapLookup k ((c.DeleteExpired now).1).items =
        (if v.expiration > 0 ∧ now > v.expiration then none else some v)) ∧
    (∀ k, mapLookup k c.items = none →
      mapLookup k ((c.DeleteExpired now).1).items = none) ∧
    (c.onEvicted = true →
      ∀ k x, ((k, x) ∈ (c.DeleteExpired now).2 ↔
        ∃ v, mapLookup k c.items = some v ∧ v.object = x ∧
          v.expiration > 0 ∧ now > v.expiration)) ∧
    (((c.DeleteExpired now).2).map Prod.fst).Nodup ∧
    (c.onEvicted = false → (c.DeleteExpired now).2 = []) := by
  refine ⟨?_, ?_, ?_, ?_, ?_⟩
  · intro k v hv
    have h := mapLookup_filter (k := k)
      (p := fun kv => !(Cache.sweepable now kv.2)) hnd
    rw [show ((c.DeleteExpired now).1).items =
        c.items.filter (fun kv => !(Cache.sweepable now kv.2)) from rfl, h, hv]
    by_cases hs : v.expiration > 0 ∧ now > v.expiration
    · simp [Cache.sweepable, hs]
    · simp [Cache.sweepable, hs]
  · intro k hk
    have h := mapLookup_filter (k := k)
      (p := fun kv => !(Cache.sweepable now kv.2)) hnd
    rw [show ((c.DeleteExpired now).1).items =
        c.items.filter (fun kv => !(Cache.sweepable now kv.2)) from rfl, h, hk]
  · intro hcb k x
    have hev : (c.DeleteExpired now).2 =
        (c.items.filter (fun kv => Cache.sweepable now kv.2)).map
          (fun kv => (kv.1, kv.2.object)) := by
      simp [Cache.DeleteExpired, hcb]
    rw [hev]
    constructor
    · intro hmem
      rcases List.mem_map.mp hmem with ⟨⟨k', v⟩, hkv, heq⟩
      obtain ⟨hk', hx⟩ : k' = k ∧ v.object = x := by
        constructor
        · exact congrArg Prod.fst heq
        · exact congrArg Prod.snd heq
      subst hk'
      have hmem' := List.mem_filter.mp hkv
      have hsw : v.expiration > 0 ∧ now > v.expiration := by
        have := hmem'.2
        simpa [Cache.sweepable] using this
      exact ⟨v, (mem_iff_mapLookup hnd).mp hmem'.1, hx, hsw⟩
    · rintro ⟨v, hv, hx, hsw⟩
      refine List.mem_map.mpr ⟨(k, v), List.mem_filter.mpr
        ⟨(mem_iff_mapLookup hnd).mpr hv, by simpa [Cache.sweepable] using hsw⟩, ?_⟩
      rw [hx]
  · by_cases hcb : c.onEvicted
    · have hev : (c.DeleteExpired now).2 =
          (c.items.filter (fun kv => Cache.sweepable now kv.2)).map
            (fun kv => (kv.1, kv.2.object)) := by
        simp [Cache.DeleteExpired, hcb]
      rw [hev, List.map_map]
      have hsub : (c.items.filter (fun kv => Cache.sweepable now kv.2)).Sublist
          c.items := List.filter_sublist _
      have : ((c.items.filter (fun kv => Cache.sweepable now kv.2)).map
          Prod.fst).Sublist (c.items.map Prod.fst) := hsub.map Prod.fst
      exact List.Nodup.sublist this hnd
    · have hcb' : c.onEvicted = false := by
        cases hb : c.onEvicted
        · rfl
        · exact absurd hb hcb
      have hev : (c.DeleteExpired now).2 = [] := by
        simp [Cache.DeleteExpired, hcb']
      simp [hev]
  · intro hcb
    simp [Cache.DeleteExpired, hcb]

/-- Witness for C6 (amended) on a three-entry store at time 100: the entry
expired at 5 is removed and evicted once, the never-expiring entry and the
entry expiring at 200 survive. -/
theorem deleteExpired_removes_exactly_positive_past_witness :
    KeysNodup (Cache.mk (-1)
      [("a", ⟨(1 : Int), 5⟩), ("b", ⟨(2 : Int), 0⟩), ("c", ⟨(3 : Int), 200⟩)]
      true).items ∧
    mapLookup "a" (((Cache.mk (-1)
      [("a", ⟨(1 : Int), 5⟩), ("b", ⟨(2 : Int), 0⟩), ("c", ⟨(3 : Int), 200⟩)]
      true).DeleteExpired 100).1).items = none ∧
    mapLookup "b" (((Cache.mk (-1)
      [("a", ⟨(1 : Int), 5⟩), ("b", ⟨(2 : Int), 0⟩), ("c", ⟨(3 : Int), 200⟩)]
      true).DeleteExpired 100).1).items = some ⟨2, 0⟩ ∧
    mapLookup "c" (((Cache.mk (-1)
      [("a", ⟨(1 : Int), 5⟩), ("b", ⟨(2 : Int), 0⟩), ("c", ⟨(3 : Int), 200⟩)]
      true).DeleteExpired 100).1).items = some ⟨3, 200⟩ ∧
    ("a", (1 : Int)) ∈ ((Cache.mk (-1)
      [("a", ⟨(1 : Int), 5⟩), ("b", ⟨(2 : Int), 0⟩), ("c", ⟨(3 : Int), 200⟩)]
      true).DeleteExpired 100).2 ∧
    ((((Cache.mk (-1)
      [("a", ⟨(1 : Int), 5⟩), ("b", ⟨(2 : Int), 0⟩), ("c", ⟨(3 : Int), 200⟩)]
      true).DeleteExpired 100).2).map Prod.fst).Nodup := by
  have h := deleteExpired_removes_exactly_positive_past
    (Cache.mk (-1)
      [("a", ⟨(1 : Int), 5⟩), ("b", ⟨(2 : Int), 0⟩), ("c", ⟨(3 : Int), 200⟩)]
      true) 100 (by decide)
  refine ⟨by decide, ?_, ?_, ?_, ?_, h.2.2.2.1⟩
  · have h1 := h.1 "a" ⟨1, 5⟩ (by decide)
    rw [if_pos (by decide : (5 : Int) > 0 ∧ (100 : Int) > 5)] at h1
    exact h1
  · have h1 := h.1 "b" ⟨2, 0⟩ (by decide)
    rw [if_neg (by decide : ¬((0 : Int) > 0 ∧ (100 : Int) > 0))] at h1
    exact h1
  · have h1 := h.1 "c" ⟨3, 200⟩ (by decide)
    rw [if_neg (by decide : ¬((200 : Int) > 0 ∧ (100 : Int) > 200))] at h1
    exact h1
  · exact (h.2.2.1 rfl "a" 1).mpr ⟨⟨1, 5⟩, by decide, rfl, by decide, by decide⟩

end GoCache
